import Mathlib

/-!
Verification of the MapZenDL elevation-tile downloader (src/main.py).

The Python source is shallowly embedded below.  Real-valued quantities
(EPSG:3857 coordinates, elevation values) are modelled as rationals, the
idealisation of the float64 arithmetic of the source; numpy integer casts
(astype to uint32 / uint8) are modelled by explicit Euclidean remainders.
Effectful code (the tile cache and fetcher) is modelled by explicit state
passing over an abstract file-system record, and the asynchronous
producer/consumer pipeline by a fold over the list of consumed queue
messages, which is faithful because the single consumer task processes
messages sequentially in arrival order and the placement result is
insensitive to that order.
-/

namespace MapZenDL

/-- Constant from main.py line 17: half the projected world circumference. -/
def EARTH_CIRCUMFERENCE : ℚ := 20037508.34278924

/-- Model of the numpy astype to uint32 (main.py line 41): a wrap to the
range of an unsigned 32-bit integer. -/
def wrap32 (z : ℤ) : ℤ := z % 4294967296

/-- Model of the numpy astype to uint8 (main.py line 31). -/
def wrap8 (z : ℤ) : ℤ := z % 256

/-- Embedding of epsg_3857_to_tile (main.py lines 33-42): the slippy-map
tile that the given EPSG:3857 coordinate falls into. -/
def epsg_3857_to_tile (coord : ℚ × ℚ) (zoom : ℕ) : ℤ × ℤ :=
  let o0 := (EARTH_CIRCUMFERENCE + coord.1) / (2 * EARTH_CIRCUMFERENCE)
  let o1 := (EARTH_CIRCUMFERENCE - coord.2) / (2 * EARTH_CIRCUMFERENCE)
  let n : ℚ := 2 ^ zoom
  (wrap32 ⌊o0 * n⌋, wrap32 ⌊o1 * n⌋)

/-- Embedding of epsg_3857_to_pixel (main.py lines 22-31): the sub-tile
pixel offset of the coordinate inside its tile.  np.modf keeps the
fractional part, which is then scaled by 256 and cast to uint8; the cast
truncates, which on the nonnegative values produced here is the floor. -/
def epsg_3857_to_pixel (coord : ℚ × ℚ) (zoom : ℕ) : ℤ × ℤ :=
  let o0 := (EARTH_CIRCUMFERENCE + coord.1) / (2 * EARTH_CIRCUMFERENCE)
  let o1 := (EARTH_CIRCUMFERENCE - coord.2) / (2 * EARTH_CIRCUMFERENCE)
  let n : ℚ := 2 ^ zoom
  let f0 := o0 * n - (⌊o0 * n⌋ : ℚ)
  let f1 := o1 * n - (⌊o1 * n⌋ : ℚ)
  (wrap8 ⌊f0 * 256⌋, wrap8 ⌊f1 * 256⌋)

/-- Embedding of the TileSet state (main.py lines 65-78). -/
structure TileSet where
  left : ℤ
  bottom : ℤ
  right : ℤ
  top : ℤ
  left_pixel : ℤ
  bottom_pixel : ℤ
  right_pixel : ℤ
  top_pixel : ℤ
  zoom : ℕ
  width : ℤ
  height : ℤ

/-- Embedding of the TileSet constructor (main.py lines 66-78).  Note that
line 70 of the source passes bounding_box[:2] (the bottom-left corner)
to epsg_3857_to_pixel when computing right_pixel and top_pixel, repeating
line 69 verbatim, instead of bounding_box[2:] (the top-right corner);
the embedding mirrors that. -/
def TileSet.ofBox (bounding_box : ℚ × ℚ × ℚ × ℚ) (zoom : ℕ) : TileSet :=
  let lb := epsg_3857_to_tile (bounding_box.1, bounding_box.2.1) zoom
  let rt := epsg_3857_to_tile (bounding_box.2.2.1, bounding_box.2.2.2) zoom
  let lbp := epsg_3857_to_pixel (bounding_box.1, bounding_box.2.1) zoom
  let rtp := epsg_3857_to_pixel (bounding_box.1, bounding_box.2.1) zoom
  let width := rt.1 - lb.1 + 1
  let height := lb.2 - rt.2 + 1
  { left := lb.1
    bottom := lb.2
    right := rt.1
    top := rt.2
    left_pixel := lbp.1
    bottom_pixel := lbp.2 + (height - 1) * 256
    right_pixel := rtp.1 + (width - 1) * 256
    top_pixel := rtp.2
    zoom := zoom
    width := width
    height := height }

/-- Embedding of TileSet.count (main.py lines 80-82). -/
def TileSet.count (ts : TileSet) : ℤ := ts.width * ts.height

/-- Embedding of TileSet.tiles (main.py lines 84-90): outer loop over tile
rows from top to bottom inclusive, inner loop over tile columns from left
to right inclusive.  range(top, bottom + 1) has height iterations since
height = bottom - top + 1, and likewise for the inner loop. -/
def TileSet.tilesList (ts : TileSet) : List (ℕ × ℤ × ℤ) :=
  (List.range ts.height.toNat).flatMap fun (j : ℕ) =>
    (List.range ts.width.toNat).map fun (i : ℕ) =>
      (ts.zoom, ts.left + (i : ℤ), ts.top + (j : ℤ))

/-- Embedding of TileSet.final_resolution (main.py lines 92-93). -/
def TileSet.final_resolution (ts : TileSet) : ℤ × ℤ :=
  (ts.width * 256, ts.height * 256)

/-- Pixel dimensions of the cropped output produced by main.py line 210,
output_data[top_pixel:bottom_pixel, left_pixel:right_pixel], when the
bounds lie inside the assembled canvas. -/
def TileSet.cropExtent (ts : TileSet) : ℤ × ℤ :=
  (ts.bottom_pixel - ts.top_pixel, ts.right_pixel - ts.left_pixel)

/-- Crop bounds as the spec describes them (sections 4.2 and 6): the
bottom-left bound comes from the sub-tile pixel offsets of the bottom-left
corner of the bounding box, the top-right bound from the offsets of the
top-right corner, and the bottom and right bounds additionally carry the
tile-grid pixel extents.  This definition follows the words of the spec
and is compared against the source-derived TileSet.ofBox. -/
def specCropBounds (bounding_box : ℚ × ℚ × ℚ × ℚ) (zoom : ℕ) : ℤ × ℤ × ℤ × ℤ :=
  let lbp := epsg_3857_to_pixel (bounding_box.1, bounding_box.2.1) zoom
  let rtp := epsg_3857_to_pixel (bounding_box.2.2.1, bounding_box.2.2.2) zoom
  let lb := epsg_3857_to_tile (bounding_box.1, bounding_box.2.1) zoom
  let rt := epsg_3857_to_tile (bounding_box.2.2.1, bounding_box.2.2.2) zoom
  let width := rt.1 - lb.1 + 1
  let height := lb.2 - rt.2 + 1
  (lbp.1, lbp.2 + (height - 1) * 256, rtp.1 + (width - 1) * 256, rtp.2)

/-- Pixel dimensions of the exact requested extent according to the spec:
vertical size bottom bound minus top bound, horizontal size right bound
minus left bound, from the spec-side crop bounds. -/
def specCropExtent (bounding_box : ℚ × ℚ × ℚ × ℚ) (zoom : ℕ) : ℤ × ℤ :=
  let b := specCropBounds bounding_box zoom
  (b.2.1 - b.2.2.2, b.2.2.1 - b.1)

/-- Raw terrarium decoding of one RGB pixel (main.py line 153):
red * 256 + green + blue / 256 - 32768. -/
def decodeRaw (p : ℕ × ℕ × ℕ) : ℚ :=
  (p.1 : ℚ) * 256 + (p.2.1 : ℚ) + (p.2.2 : ℚ) / 256 - 32768

/-- Terrarium decoding with the negative clamp of main.py line 154:
entries below zero are replaced by zero. -/
def decode (p : ℕ × ℕ × ℕ) : ℚ :=
  if decodeRaw p < 0 then 0 else decodeRaw p

/-- A decoded 256 by 256 tile image, addressed as row, column, giving the
byte-valued RGB channels of that pixel. -/
def TileImage := ℕ → ℕ → ℕ × ℕ × ℕ

/-- One queue message consumed by process_tiles: the tile index paired
with the pixel data of the fetched image (main.py line 147). -/
def TileMsg := ℕ × TileImage

/-- The assembled canvas, addressed as in the source: first axis x
(horizontal, length width * 256), second axis y (vertical). -/
def Canvas := ℕ → ℕ → ℚ

/-- The zero-initialised canvas of main.py line 138 (np.zeros). -/
def initialCanvas : Canvas := fun _ _ => 0

/-- The 256 by 256 pixel region of the canvas belonging to tile index t
(main.py lines 156-158): x from (t mod width) * 256, y from
(t div width) * 256, each spanning 256 pixels. -/
def inRegion (width t x y : ℕ) : Prop :=
  t % width * 256 ≤ x ∧ x < t % width * 256 + 256 ∧
    t / width * 256 ≤ y ∧ y < t / width * 256 + 256

instance (width t x y : ℕ) : Decidable (inRegion width t x y) := by
  unfold inRegion; infer_instance

/-- Embedding of the loop body of process_tiles (main.py lines 147-158):
decode the tile into a heightmap and write its transpose into the slice
output_image[x:x+256, y:y+256].  A canvas point inside the region receives
the decoded pixel of the message image at row y - yStart, column
x - xStart (the transpose); points outside keep their previous value. -/
def placeTile (width : ℕ) (canvas : Canvas) (m : TileMsg) : Canvas :=
  let xStart := m.1 % width * 256
  let yStart := m.1 / width * 256
  fun x y =>
    if inRegion width m.1 x y then decode (m.2 (y - yStart) (x - xStart))
    else canvas x y

/-- Embedding of process_tiles (main.py lines 136-162): starting from the
zero canvas, place every consumed message in order. -/
def process_tiles (width : ℕ) (msgs : List TileMsg) : Canvas :=
  msgs.foldl (placeTile width) initialCanvas

/-- Embedding of np.percentile with the default linear interpolation
(main.py lines 47-48): sort ascending, locate the fractional position
q / 100 * (n - 1), and interpolate between the two neighbouring entries. -/
def percentile (l : List ℚ) (q : ℚ) : ℚ :=
  let s := List.insertionSort (· ≤ ·) l
  let p := q / 100 * ((l.length : ℚ) - 1)
  let i := (⌊p⌋).toNat
  let f := p - (⌊p⌋ : ℚ)
  let lo := s.getD i 0
  let hi := s.getD (i + 1) lo
  lo + f * (hi - lo)

/-- Population variance of the data, the square of np.std (main.py
line 50).  The source compares distances against the standard deviation;
the embedding compares squared distances against the variance, which is
equivalent since both sides are nonnegative. -/
def variance (l : List ℚ) : ℚ :=
  let mean := l.sum / (l.length : ℚ)
  (l.map fun v => (v - mean) ^ 2).sum / (l.length : ℚ)

/-- np.min over a nonempty list (main.py line 52); 0 on the empty list,
where the source would raise. -/
def actualMin : List ℚ → ℚ
  | [] => 0
  | x :: xs => xs.foldl min x

/-- np.max over a nonempty list (main.py line 53). -/
def actualMax : List ℚ → ℚ
  | [] => 0
  | x :: xs => xs.foldl max x

/-- np.clip(v, 0, 1) of main.py line 60. -/
def clip01 (q : ℚ) : ℚ := min 1 (max 0 q)

/-- Embedding of normalize_height_data (main.py lines 44-62).  The float
division of line 59 yields NaN or infinity when max_val - min_val is zero;
the embedding returns none in that case (and on the empty input, where
np.percentile would raise), and otherwise the elementwise rescaled and
clipped data. -/
def normalize_height_data (data : List ℚ) : Option (List ℚ) :=
  match data with
  | [] => none
  | _ :: _ =>
    let min_window := percentile data 0.005
    let max_window := percentile data 99.995
    let act_min := actualMin data
    let act_max := actualMax data
    let min_val := if (act_min - min_window) ^ 2 ≤ variance data then act_min else min_window
    let max_val := if (act_max - max_window) ^ 2 ≤ variance data then act_max else max_window
    if max_val - min_val = 0 then none
    else some (data.map fun v => clip01 ((v - min_val) / (max_val - min_val)))

/-- Model of the uint16 output scaling of main.py line 213: values in
[0, 1] are multiplied by 65535 and truncated, which on nonnegative values
is the floor. -/
def scaleTo16 (q : ℚ) : ℤ := ⌊q * 65535⌋

/-- Embedding of tile_coords_to_filepath (main.py lines 96-99). -/
def tile_coords_to_filepath (coordinates : List ℕ) : String :=
  String.intercalate "/" (coordinates.map toString) ++ ".png"

/-- The chain of parent directories that pathlib mkdir(parents=True)
creates for the cache path of the given coordinates: one directory per
proper prefix of the coordinate route. -/
def parentDirs (coordinates : List ℕ) : List String :=
  (List.range (coordinates.length - 1)).map fun i =>
    String.intercalate "/" ((coordinates.take (i + 1)).map toString)

/-- Abstract state of the cache directory tree: the set of directories
created so far and the files present, keyed by their path relative to the
cache root.  File contents are byte lists. -/
structure FS where
  dirs : List String
  files : List (String × List ℕ)

/-- Effect of save_path.parent.mkdir(parents=True, exist_ok=True)
(main.py line 117): every missing parent directory of the cache path is
created, existing ones are left alone. -/
def mkdirParents (fs : FS) (coordinates : List ℕ) : FS :=
  { fs with
    dirs := fs.dirs ++ (parentDirs coordinates).filter fun d => !fs.dirs.contains d }

/-- Result of one download_tile call: the file-system state afterwards,
the messages put on the queue, the lines printed, and the HTTP requests
issued. -/
structure FetchResult where
  fs : FS
  queue : List (ℕ × List ℕ)
  log : List String
  requests : List String

/-- main.py line 18. -/
def URL_BASE : String := "https://s3.amazonaws.com/elevation-tiles-prod/terrarium/"

/-- Embedding of download_tile (main.py lines 113-133).  The response
argument stubs the remote tile service: HTTP status code paired with the
body bytes.  The parent directories are created first (line 117); then the
cache is consulted (line 119); on a miss the service is queried, a 200
response is enqueued and persisted (lines 124-129), and any other status
only logs a failure line (lines 130-133), with no retry. -/
def download_tile (fs : FS) (response : ℕ × List ℕ) (coords : List ℕ)
    (tile_index : ℕ) : FetchResult :=
  let image_filepath := tile_coords_to_filepath coords
  let url := URL_BASE ++ image_filepath
  let fs1 := mkdirParents fs coords
  match fs1.files.lookup image_filepath with
  | some data => { fs := fs1, queue := [(tile_index, data)], log := [], requests := [] }
  | none =>
    if response.1 = 200 then
      { fs := { fs1 with files := (image_filepath, response.2) :: fs1.files }
        queue := [(tile_index, response.2)]
        log := []
        requests := [url] }
    else
      { fs := fs1
        queue := []
        log := ["Failed to download tile " ++ image_filepath ++ ", error "
                  ++ toString response.1]
        requests := [url] }

/-- A constant test image, used to instantiate theorems at concrete
inputs. -/
def constImage (p : ℕ × ℕ × ℕ) : TileImage := fun _ _ => p

lemma placeTile_of_inRegion (width : ℕ) (c : Canvas) (m : TileMsg) (x y : ℕ)
    (h : inRegion width m.1 x y) :
    placeTile width c m x y
      = decode (m.2 (y - m.1 / width * 256) (x - m.1 % width * 256)) := by
  simp [placeTile, h]

lemma placeTile_of_notRegion (width : ℕ) (c : Canvas) (m : TileMsg) (x y : ℕ)
    (h : ¬ inRegion width m.1 x y) :
    placeTile width c m x y = c x y := by
  simp [placeTile, h]

lemma inRegion_disjoint {w t u x y : ℕ} (htu : t ≠ u)
    (ht : inRegion w t x y) (hu : inRegion w u x y) : False := by
  obtain ⟨ht1, ht2, ht3, ht4⟩ := ht
  obtain ⟨hu1, hu2, hu3, hu4⟩ := hu
  have hxt : x / 256 = t % w := Nat.div_eq_of_lt_le ht1 (by omega)
  have hxu : x / 256 = u % w := Nat.div_eq_of_lt_le hu1 (by omega)
  have hyt : y / 256 = t / w := Nat.div_eq_of_lt_le ht3 (by omega)
  have hyu : y / 256 = u / w := Nat.div_eq_of_lt_le hu3 (by omega)
  have hmod : t % w = u % w := by omega
  have hdiv : t / w = u / w := by omega
  apply htu
  calc t = w * (t / w) + t % w := (Nat.div_add_mod t w).symm
    _ = w * (u / w) + u % w := by rw [hmod, hdiv]
    _ = u := Nat.div_add_mod u w

lemma foldl_placeTile_of_disjoint (w : ℕ) (msgs : List TileMsg) (c : Canvas)
    (x y : ℕ) (h : ∀ m ∈ msgs, ¬ inRegion w m.1 x y) :
    (msgs.foldl (placeTile w) c) x y = c x y := by
  induction msgs generalizing c with
  | nil => rfl
  | cons m ms ih =>
    rw [List.foldl_cons, ih _ fun m2 hm2 => h m2 (List.mem_cons_of_mem _ hm2)]
    exact placeTile_of_notRegion w c m x y (h m (List.mem_cons_self _ _))

lemma process_tiles_eq_decode (w : ℕ) (msgs : List TileMsg)
    (hnd : (msgs.map Prod.fst).Nodup) (m : TileMsg) (hm : m ∈ msgs) (x y : ℕ)
    (hxy : inRegion w m.1 x y) :
    process_tiles w msgs x y
      = decode (m.2 (y - m.1 / w * 256) (x - m.1 % w * 256)) := by
  obtain ⟨s, t2, rfl⟩ := List.append_of_mem hm
  have hnd2 : m.1 ∉ t2.map Prod.fst := by
    simp only [List.map_append, List.map_cons] at hnd
    exact (List.nodup_cons.mp (List.Nodup.of_append_right hnd)).1
  unfold process_tiles
  rw [List.foldl_append, List.foldl_cons]
  rw [foldl_placeTile_of_disjoint w t2 _ x y fun m2 hm2 hreg =>
    inRegion_disjoint
      (fun he => hnd2 (by rw [← he]; exact List.mem_map_of_mem Prod.fst hm2))
      hreg hxy]
  exact placeTile_of_inRegion w _ m x y hxy

lemma process_tiles_eq_zero (w : ℕ) (msgs : List TileMsg) (t : ℕ)
    (h : ∀ m ∈ msgs, m.1 ≠ t) (x y : ℕ) (hxy : inRegion w t x y) :
    process_tiles w msgs x y = 0 := by
  unfold process_tiles
  rw [foldl_placeTile_of_disjoint w msgs _ x y fun m hm hreg =>
    inRegion_disjoint (h m hm) hreg hxy]
  rfl

lemma decode_nonneg (p : ℕ × ℕ × ℕ) : 0 ≤ decode p := by
  unfold decode
  split
  · exact le_refl 0
  · exact le_of_not_lt (by assumption)

/-- C2: every consumed message (TileIndex, bytes) with an index below
width * height has its decoded 256 by 256 block written into the canvas
exactly at the region given by row = index div width and
col = index mod width (rowPixel = row * 256, colPixel = col * 256), the
regions of distinct indices are pairwise disjoint and lie inside the
canvas of dimensions (width * 256, height * 256), and under the pipeline
guarantee that each tile index is consumed at most once the value of the
region is exactly the decoded block of its unique message. -/
theorem tile_placement_correct (w h : ℕ) (hw : 0 < w) (msgs : List TileMsg)
    (hnd : (msgs.map Prod.fst).Nodup) (m : TileMsg) (hm : m ∈ msgs)
    (hlt : m.1 < w * h) :
    (∀ x y, inRegion w m.1 x y →
        process_tiles w msgs x y
          = decode (m.2 (y - m.1 / w * 256) (x - m.1 % w * 256)))
    ∧ (∀ x y, inRegion w m.1 x y → x < w * 256 ∧ y < h * 256)
    ∧ (∀ t u x y, t ≠ u → ¬ (inRegion w t x y ∧ inRegion w u x y)) := by
  refine ⟨fun x y hxy => process_tiles_eq_decode w msgs hnd m hm x y hxy,
    fun x y hxy => ?_, fun t u x y htu hc => inRegion_disjoint htu hc.1 hc.2⟩
  obtain ⟨h1, h2, h3, h4⟩ := hxy
  have hmod : m.1 % w < w := Nat.mod_lt _ hw
  have hdiv : m.1 / w < h := Nat.div_lt_of_lt_mul hlt
  exact ⟨by omega, by omega⟩

theorem tile_placement_correct_witness :
    (0 : ℕ) < 2
    ∧ (([(0, constImage (200, 10, 3)), (1, constImage (0, 0, 0))]
          : List TileMsg).map Prod.fst).Nodup
    ∧ ((0 : ℕ), constImage (200, 10, 3)).1 < 2 * 2
    ∧ ((∀ x y, inRegion 2 ((0 : ℕ), constImage (200, 10, 3)).1 x y →
        process_tiles 2 [(0, constImage (200, 10, 3)), (1, constImage (0, 0, 0))] x y
          = decode (constImage (200, 10, 3) (y - 0 / 2 * 256) (x - 0 % 2 * 256)))
      ∧ (∀ x y, inRegion 2 ((0 : ℕ), constImage (200, 10, 3)).1 x y →
          x < 2 * 256 ∧ y < 2 * 256)
      ∧ (∀ t u x y, t ≠ u → ¬ (inRegion 2 t x y ∧ inRegion 2 u x y))) :=
  ⟨by decide, by decide, by decide,
    tile_placement_correct 2 2 (by decide)
      [(0, constImage (200, 10, 3)), (1, constImage (0, 0, 0))] (by decide)
      (0, constImage (200, 10, 3)) (List.mem_cons_self _ _) (by decide)⟩

/-- C3: in a 2 by 2 TileSet where the fetch of exactly one tile fails
with a non-200 status, the pre-normalization canvas holds the background
value 0 on exactly the failed tile region and the correctly decoded data
on the three successful regions; the failed download only logs one line,
enqueues nothing, issues a single request (no retry), and does not touch
the cached files. -/
theorem failed_tile_region_is_zero (msgs : List TileMsg)
    (hnd : (msgs.map Prod.fst).Nodup) (f : ℕ) (hf : f < 4)
    (hfm : ∀ m ∈ msgs, m.1 ≠ f) :
    (∀ x y, inRegion 2 f x y → process_tiles 2 msgs x y = 0)
    ∧ (∀ m ∈ msgs, ∀ x y, inRegion 2 m.1 x y →
        process_tiles 2 msgs x y
          = decode (m.2 (y - m.1 / 2 * 256) (x - m.1 % 2 * 256)))
    ∧ (∀ (fs : FS) (resp : ℕ × List ℕ) (coords : List ℕ) (ti : ℕ),
        fs.files.lookup (tile_coords_to_filepath coords) = none → resp.1 ≠ 200 →
          (download_tile fs resp coords ti).queue = []
          ∧ (download_tile fs resp coords ti).fs.files = fs.files
          ∧ (download_tile fs resp coords ti).requests.length = 1
          ∧ (download_tile fs resp coords ti).log.length = 1) := by
  refine ⟨fun x y hxy => process_tiles_eq_zero 2 msgs f hfm x y hxy,
    fun m hm x y hxy => process_tiles_eq_decode 2 msgs hnd m hm x y hxy,
    fun fs resp coords ti hmiss hstatus => ?_⟩
  unfold download_tile
  simp only [mkdirParents]
  rw [hmiss, if_neg hstatus]
  exact ⟨rfl, rfl, rfl, rfl⟩

theorem failed_tile_region_is_zero_witness :
    (([(0, constImage (200, 10, 3)), (1, constImage (0, 0, 0)),
        (2, constImage (130, 5, 9))] : List TileMsg).map Prod.fst).Nodup
    ∧ (3 : ℕ) < 4
    ∧ (∀ m ∈ ([(0, constImage (200, 10, 3)), (1, constImage (0, 0, 0)),
        (2, constImage (130, 5, 9))] : List TileMsg), m.1 ≠ 3)
    ∧ ((∀ x y, inRegion 2 3 x y →
        process_tiles 2 [(0, constImage (200, 10, 3)), (1, constImage (0, 0, 0)),
          (2, constImage (130, 5, 9))] x y = 0)
      ∧ (∀ m ∈ ([(0, constImage (200, 10, 3)), (1, constImage (0, 0, 0)),
          (2, constImage (130, 5, 9))] : List TileMsg), ∀ x y, inRegion 2 m.1 x y →
          process_tiles 2 [(0, constImage (200, 10, 3)), (1, constImage (0, 0, 0)),
            (2, constImage (130, 5, 9))] x y
            = decode (m.2 (y - m.1 / 2 * 256) (x - m.1 % 2 * 256)))
      ∧ (∀ (fs : FS) (resp : ℕ × List ℕ) (coords : List ℕ) (ti : ℕ),
          fs.files.lookup (tile_coords_to_filepath coords) = none → resp.1 ≠ 200 →
            (download_tile fs resp coords ti).queue = []
            ∧ (download_tile fs resp coords ti).fs.files = fs.files
            ∧ (download_tile fs resp coords ti).requests.length = 1
            ∧ (download_tile fs resp coords ti).log.length = 1)) :=
  ⟨by decide, by decide,
    by intro m hm; fin_cases hm <;> decide,
    failed_tile_region_is_zero
      [(0, constImage (200, 10, 3)), (1, constImage (0, 0, 0)),
        (2, constImage (130, 5, 9))]
      (by decide) 3 (by decide)
      (by intro m hm; fin_cases hm <;> decide)⟩

/-- C6: the decoded elevation of an RGB pixel is
R * 256 + G + B / 256 - 32768 with negative results clamped to 0, so in
particular the all-zero pixel decodes to 0 after clamping, and the
placement step applies this decoding elementwise to the tile image. -/
theorem decode_terrarium_formula :
    decode (0, 0, 0) = 0
    ∧ (∀ r g b : ℕ,
        decodeRaw (r, g, b) = (r : ℚ) * 256 + (g : ℚ) + (b : ℚ) / 256 - 32768)
    ∧ (∀ p, decode p = max 0 (decodeRaw p))
    ∧ (∀ w (c : Canvas) (m : TileMsg) x y, inRegion w m.1 x y →
        placeTile w c m x y
          = decode (m.2 (y - m.1 / w * 256) (x - m.1 % w * 256))) := by
  refine ⟨by norm_num [decode, decodeRaw], fun r g b => rfl, fun p => ?_,
    fun w c m x y hxy => placeTile_of_inRegion w c m x y hxy⟩
  unfold decode
  rcases lt_or_le (decodeRaw p) 0 with hlt | hle
  · rw [if_pos hlt, max_eq_left (le_of_lt hlt)]
  · rw [if_neg (not_lt.mpr hle), max_eq_right hle]

theorem decode_terrarium_formula_witness :
    inRegion 2 0 3 7
    ∧ placeTile 2 initialCanvas (0, constImage (0, 0, 0)) 3 7
        = decode (constImage (0, 0, 0) (7 - 0 / 2 * 256) (3 - 0 % 2 * 256)) :=
  ⟨by decide,
    decode_terrarium_formula.2.2.2 2 initialCanvas (0, constImage (0, 0, 0)) 3 7
      (by decide)⟩

/-- C10: the pre-crop canvas is zero-initialised, every placement step
preserves elementwise nonnegativity because decoded heights are clamped
at zero before placement, and hence every element of the canvas is
nonnegative during and after assembly. -/
theorem canvas_nonneg :
    (∀ x y, initialCanvas x y = 0)
    ∧ (∀ w (c : Canvas), (∀ x y, (0 : ℚ) ≤ c x y) →
        ∀ (msgs : List TileMsg) x y, 0 ≤ (msgs.foldl (placeTile w) c) x y)
    ∧ (∀ w (msgs : List TileMsg) x y, 0 ≤ process_tiles w msgs x y) := by
  have key : ∀ w (c : Canvas), (∀ x y, (0 : ℚ) ≤ c x y) →
      ∀ (msgs : List TileMsg) x y, 0 ≤ (msgs.foldl (placeTile w) c) x y := by
    intro w c hc msgs
    induction msgs generalizing c with
    | nil => exact hc
    | cons m ms ih =>
      intro x y
      rw [List.foldl_cons]
      refine ih _ (fun x2 y2 => ?_) x y
      unfold placeTile
      split
      · exact decode_nonneg _
      · exact hc x2 y2
  exact ⟨fun x y => rfl, key,
    fun w msgs x y => key w initialCanvas (fun _ _ => le_refl 0) msgs x y⟩

theorem canvas_nonneg_witness :
    (∀ x y, (0 : ℚ) ≤ initialCanvas x y)
    ∧ 0 ≤ (([(0, constImage (0, 0, 0))] : List TileMsg).foldl
        (placeTile 2) initialCanvas) 5 5 :=
  ⟨fun x y => le_refl 0,
    canvas_nonneg.2.1 2 initialCanvas (fun x y => le_refl 0)
      [(0, constImage (0, 0, 0))] 5 5⟩

lemma sum_eq_length_mul (l : List ℚ) (c : ℚ) (h : ∀ v ∈ l, v = c) :
    l.sum = (l.length : ℚ) * c := by
  induction l with
  | nil => simp
  | cons x xs ih =>
    simp only [List.sum_cons, List.length_cons]
    rw [h x (List.mem_cons_self _ _),
      ih fun v hv => h v (List.mem_cons_of_mem _ hv)]
    push_cast
    ring

lemma variance_const (l : List ℚ) (c : ℚ) (hne : l ≠ []) (h : ∀ v ∈ l, v = c) :
    variance l = 0 := by
  have hlen : (l.length : ℚ) ≠ 0 := by
    have := List.length_pos.mpr hne
    positivity
  simp only [variance]
  rw [sum_eq_length_mul l c h, mul_div_cancel_left₀ c hlen,
    sum_eq_length_mul (l.map fun v => (v - c) ^ 2) 0 ?_]
  · simp
  · intro v hv
    obtain ⟨w, hw, rfl⟩ := List.mem_map.mp hv
    rw [h w hw]
    ring

lemma foldl_min_const (c : ℚ) (xs : List ℚ) (h : ∀ v ∈ xs, v = c) :
    xs.foldl min c = c := by
  induction xs with
  | nil => rfl
  | cons x xs2 ih =>
    rw [List.foldl_cons, h x (List.mem_cons_self _ _), min_self]
    exact ih fun v hv => h v (List.mem_cons_of_mem _ hv)

lemma foldl_max_const (c : ℚ) (xs : List ℚ) (h : ∀ v ∈ xs, v = c) :
    xs.foldl max c = c := by
  induction xs with
  | nil => rfl
  | cons x xs2 ih =>
    rw [List.foldl_cons, h x (List.mem_cons_self _ _), max_self]
    exact ih fun v hv => h v (List.mem_cons_of_mem _ hv)

lemma actualMin_const (c : ℚ) (l : List ℚ) (hne : l ≠ []) (h : ∀ v ∈ l, v = c) :
    actualMin l = c := by
  match l with
  | [] => exact absurd rfl hne
  | x :: xs =>
    simp only [actualMin]
    rw [h x (List.mem_cons_self _ _)]
    exact foldl_min_const c xs fun v hv => h v (List.mem_cons_of_mem _ hv)

lemma actualMax_const (c : ℚ) (l : List ℚ) (hne : l ≠ []) (h : ∀ v ∈ l, v = c) :
    actualMax l = c := by
  match l with
  | [] => exact absurd rfl hne
  | x :: xs =>
    simp only [actualMax]
    rw [h x (List.mem_cons_self _ _)]
    exact foldl_max_const c xs fun v hv => h v (List.mem_cons_of_mem _ hv)

lemma percentile_const (c q : ℚ) (l : List ℚ) (hall : ∀ v ∈ l, v = c)
    (hne : l ≠ []) (hq0 : 0 ≤ q) (hq1 : q ≤ 100) : percentile l q = c := by
  have hperm := List.perm_insertionSort (fun a b : ℚ => a ≤ b) l
  have hlen : (List.insertionSort (· ≤ ·) l).length = l.length := hperm.length_eq
  have hsmem : ∀ v ∈ List.insertionSort (· ≤ ·) l, v = c := fun v hv =>
    hall v (hperm.mem_iff.mp hv)
  have hn1 : 1 ≤ l.length := List.length_pos.mpr hne
  have hple : q / 100 * ((l.length : ℚ) - 1) ≤ (l.length : ℚ) - 1 := by
    apply mul_le_of_le_one_left
    · have : (1 : ℚ) ≤ (l.length : ℚ) := by exact_mod_cast hn1
      linarith
    · linarith
  have hfle : ⌊q / 100 * ((l.length : ℚ) - 1)⌋ ≤ (l.length : ℤ) - 1 := by
    calc ⌊q / 100 * ((l.length : ℚ) - 1)⌋
        ≤ ⌊(l.length : ℚ) - 1⌋ := Int.floor_le_floor hple
      _ = (l.length : ℤ) - 1 := by
          rw [show ((l.length : ℚ) - 1) = (((l.length : ℤ) - 1 : ℤ) : ℚ) by
            push_cast; ring, Int.floor_intCast]
  have hilt : (⌊q / 100 * ((l.length : ℚ) - 1)⌋).toNat < l.length := by omega
  simp only [percentile]
  have hlo : (List.insertionSort (· ≤ ·) l).getD
      (⌊q / 100 * ((l.length : ℚ) - 1)⌋).toNat 0 = c := by
    rw [List.getD_eq_getElem _ _ (by omega)]
    exact hsmem _ (List.getElem_mem _)
  have hhi : ∀ d, (List.insertionSort (· ≤ ·) l).getD
      ((⌊q / 100 * ((l.length : ℚ) - 1)⌋).toNat + 1) d = c ∨
      (List.insertionSort (· ≤ ·) l).getD
      ((⌊q / 100 * ((l.length : ℚ) - 1)⌋).toNat + 1) d = d := by
    intro d
    rcases lt_or_le ((⌊q / 100 * ((l.length : ℚ) - 1)⌋).toNat + 1)
        (List.insertionSort (· ≤ ·) l).length with hc | hc
    · left
      rw [List.getD_eq_getElem _ _ hc]
      exact hsmem _ (List.getElem_mem _)
    · right
      exact List.getD_eq_default _ _ hc
  rw [hlo]
  rcases hhi c with hc | hc <;> rw [hc] <;> ring

/-- C4: the claim states that normalizing a nonempty all-equal canvas
does not divide by zero and yields a well-defined constant value in the
output range.  On such data the code picks min_val = max_val equal to the
common value and evaluates (data - min_val) / (max_val - min_val) with a
zero divisor (main.py line 59), a float division returning NaN, so the
claimed property fails in the code; the embedding models that division
as the failure value none.  This theorem evaluates the embedded code on
every flat canvas and exhibits the zero divisor. -/
theorem normalize_flat_divides_by_zero (c : ℚ) (n : ℕ) (hn : 0 < n) :
    normalize_height_data (List.replicate n c) = none := by
  obtain ⟨m, rfl⟩ : ∃ m, n = m + 1 := ⟨n - 1, by omega⟩
  have hne : List.replicate (m + 1) c ≠ [] := by simp
  have hall : ∀ v ∈ List.replicate (m + 1) c, v = c := fun v hv =>
    List.eq_of_mem_replicate hv
  have h1 : percentile (List.replicate (m + 1) c) 0.005 = c :=
    percentile_const c _ _ hall hne (by norm_num) (by norm_num)
  have h2 : percentile (List.replicate (m + 1) c) 99.995 = c :=
    percentile_const c _ _ hall hne (by norm_num) (by norm_num)
  have h3 : actualMin (List.replicate (m + 1) c) = c := actualMin_const c _ hne hall
  have h4 : actualMax (List.replicate (m + 1) c) = c := actualMax_const c _ hne hall
  have h5 : variance (List.replicate (m + 1) c) = 0 := variance_const _ c hne hall
  rw [List.replicate_succ] at h1 h2 h3 h4 h5 ⊢
  simp only [normalize_height_data]
  rw [h1, h2, h3, h4, h5]
  simp

theorem normalize_flat_divides_by_zero_witness :
    0 < 4 ∧ normalize_height_data (List.replicate 4 (5 : ℚ)) = none :=
  ⟨by decide, normalize_flat_divides_by_zero 5 4 (by decide)⟩

/-- C5: for a nonconstant canvas whose true minimum and maximum lie
within one standard deviation of the 0.005th and 99.995th percentile
windows (stated with both sides squared, which is equivalent), the code
chooses the true minimum and maximum as the rescaling bounds, and the
rescaled output maps the original minimum to output value 0 and the
original maximum to the top of the 16-bit output range. -/
theorem normalize_roundtrip (d : ℚ) (ds : List ℚ)
    (hne : actualMin (d :: ds) < actualMax (d :: ds))
    (hmin : (actualMin (d :: ds) - percentile (d :: ds) 0.005) ^ 2
      ≤ variance (d :: ds))
    (hmax : (actualMax (d :: ds) - percentile (d :: ds) 99.995) ^ 2
      ≤ variance (d :: ds)) :
    normalize_height_data (d :: ds)
      = some ((d :: ds).map fun v =>
          clip01 ((v - actualMin (d :: ds))
            / (actualMax (d :: ds) - actualMin (d :: ds))))
    ∧ scaleTo16 (clip01 ((actualMin (d :: ds) - actualMin (d :: ds))
        / (actualMax (d :: ds) - actualMin (d :: ds)))) = 0
    ∧ scaleTo16 (clip01 ((actualMax (d :: ds) - actualMin (d :: ds))
        / (actualMax (d :: ds) - actualMin (d :: ds)))) = 65535 := by
  have hdenom : actualMax (d :: ds) - actualMin (d :: ds) ≠ 0 :=
    sub_ne_zero.mpr (ne_of_gt hne)
  refine ⟨?_, ?_, ?_⟩
  · simp only [normalize_height_data]
    rw [if_pos hmin, if_pos hmax, if_neg hdenom]
  · rw [sub_self, zero_div]
    norm_num [clip01, scaleTo16]
  · rw [div_self hdenom]
    norm_num [clip01, scaleTo16]

theorem normalize_roundtrip_witness :
    actualMin [(0 : ℚ), 1, 2, 3] < actualMax [(0 : ℚ), 1, 2, 3]
    ∧ (actualMin [(0 : ℚ), 1, 2, 3] - percentile [(0 : ℚ), 1, 2, 3] 0.005) ^ 2
        ≤ variance [(0 : ℚ), 1, 2, 3]
    ∧ (actualMax [(0 : ℚ), 1, 2, 3] - percentile [(0 : ℚ), 1, 2, 3] 99.995) ^ 2
        ≤ variance [(0 : ℚ), 1, 2, 3]
    ∧ (normalize_height_data [(0 : ℚ), 1, 2, 3]
        = some (([(0 : ℚ), 1, 2, 3]).map fun v =>
            clip01 ((v - actualMin [(0 : ℚ), 1, 2, 3])
              / (actualMax [(0 : ℚ), 1, 2, 3] - actualMin [(0 : ℚ), 1, 2, 3])))
      ∧ scaleTo16 (clip01 ((actualMin [(0 : ℚ), 1, 2, 3] - actualMin [(0 : ℚ), 1, 2, 3])
          / (actualMax [(0 : ℚ), 1, 2, 3] - actualMin [(0 : ℚ), 1, 2, 3]))) = 0
      ∧ scaleTo16 (clip01 ((actualMax [(0 : ℚ), 1, 2, 3] - actualMin [(0 : ℚ), 1, 2, 3])
          / (actualMax [(0 : ℚ), 1, 2, 3] - actualMin [(0 : ℚ), 1, 2, 3]))) = 65535) :=
  ⟨by norm_num [actualMin, actualMax, min_def, max_def],
    by norm_num [actualMin, percentile, variance, List.insertionSort,
      List.orderedInsert, List.getD, List.getElem?_cons, Int.toNat, min_def],
    by norm_num [actualMax, percentile, variance, List.insertionSort,
      List.orderedInsert, List.getD, List.getElem?_cons, Int.toNat, max_def],
    normalize_roundtrip 0 [1, 2, 3]
      (by norm_num [actualMin, actualMax, min_def, max_def])
      (by norm_num [actualMin, percentile, variance, List.insertionSort,
        List.orderedInsert, List.getD, List.getElem?_cons, Int.toNat, min_def])
      (by norm_num [actualMax, percentile, variance, List.insertionSort,
        List.orderedInsert, List.getD, List.getElem?_cons, Int.toNat, max_def])⟩

lemma EC_pos : (0 : ℚ) < EARTH_CIRCUMFERENCE := by
  norm_num [EARTH_CIRCUMFERENCE]

lemma wrap32_id {a : ℤ} (h0 : 0 ≤ a) (h1 : a < 4294967296) : wrap32 a = a :=
  Int.emod_eq_of_lt h0 h1

lemma u_bounds (x : ℚ) (h1 : -EARTH_CIRCUMFERENCE ≤ x)
    (h2 : x ≤ EARTH_CIRCUMFERENCE) :
    0 ≤ (EARTH_CIRCUMFERENCE + x) / (2 * EARTH_CIRCUMFERENCE)
      ∧ (EARTH_CIRCUMFERENCE + x) / (2 * EARTH_CIRCUMFERENCE) ≤ 1 := by
  have hR := EC_pos
  constructor
  · apply div_nonneg <;> linarith
  · rw [div_le_one (by linarith)]
    linarith

lemma v_bounds (y : ℚ) (h1 : -EARTH_CIRCUMFERENCE ≤ y)
    (h2 : y ≤ EARTH_CIRCUMFERENCE) :
    0 ≤ (EARTH_CIRCUMFERENCE - y) / (2 * EARTH_CIRCUMFERENCE)
      ∧ (EARTH_CIRCUMFERENCE - y) / (2 * EARTH_CIRCUMFERENCE) ≤ 1 := by
  have hR := EC_pos
  constructor
  · apply div_nonneg <;> linarith
  · rw [div_le_one (by linarith)]
    linarith

lemma floor_scale_bounds (u : ℚ) (zoom : ℕ) (hz : zoom ≤ 15) (h0 : 0 ≤ u)
    (h1 : u ≤ 1) :
    0 ≤ ⌊u * 2 ^ zoom⌋ ∧ ⌊u * 2 ^ zoom⌋ < 4294967296 := by
  refine ⟨Int.floor_nonneg.mpr (mul_nonneg h0 (by positivity)), ?_⟩
  have hle : u * 2 ^ zoom ≤ 2 ^ zoom := mul_le_of_le_one_left (by positivity) h1
  have h2 : ⌊u * 2 ^ zoom⌋ ≤ ((2 : ℤ) ^ zoom) := by
    calc ⌊u * 2 ^ zoom⌋ ≤ ⌊((2 : ℚ) ^ zoom)⌋ := Int.floor_le_floor hle
      _ = (2 : ℤ) ^ zoom := by
          rw [show ((2 : ℚ) ^ zoom) = ((((2 : ℤ) ^ zoom) : ℤ) : ℚ) by push_cast; ring,
            Int.floor_intCast]
  have h3 : ((2 : ℤ) ^ zoom) ≤ 2 ^ 15 := pow_le_pow_right₀ (by norm_num) hz
  have h4 : ((2 : ℤ) ^ 15) = 32768 := by norm_num
  omega

/-- C8: for coordinates inside the projected world square and zoom in the
service range, the projection to tile indices is monotone in each axis:
increasing the projected x never decreases the returned tile column, and
increasing the projected y never increases the returned tile row. -/
theorem projectToTile_monotone (zoom : ℕ) (hz : zoom ≤ 15) :
    (∀ x1 x2 y : ℚ, -EARTH_CIRCUMFERENCE ≤ x1 → x1 ≤ x2 →
      x2 ≤ EARTH_CIRCUMFERENCE →
        (epsg_3857_to_tile (x1, y) zoom).1 ≤ (epsg_3857_to_tile (x2, y) zoom).1)
    ∧ (∀ x y1 y2 : ℚ, -EARTH_CIRCUMFERENCE ≤ y1 → y1 ≤ y2 →
      y2 ≤ EARTH_CIRCUMFERENCE →
        (epsg_3857_to_tile (x, y2) zoom).2
          ≤ (epsg_3857_to_tile (x, y1) zoom).2) := by
  have hR := EC_pos
  constructor
  · intro x1 x2 y h1 h12 h2
    simp only [epsg_3857_to_tile]
    have hu1 := u_bounds x1 h1 (le_trans h12 h2)
    have hu2 := u_bounds x2 (le_trans h1 h12) h2
    have hb1 := floor_scale_bounds _ zoom hz hu1.1 hu1.2
    have hb2 := floor_scale_bounds _ zoom hz hu2.1 hu2.2
    rw [wrap32_id hb1.1 hb1.2, wrap32_id hb2.1 hb2.2]
    exact Int.floor_le_floor (mul_le_mul_of_nonneg_right
      (div_le_div_of_nonneg_right (by linarith) (by linarith)) (by positivity))
  · intro x y1 y2 h1 h12 h2
    simp only [epsg_3857_to_tile]
    have hv1 := v_bounds y1 h1 (le_trans h12 h2)
    have hv2 := v_bounds y2 (le_trans h1 h12) h2
    have hb1 := floor_scale_bounds _ zoom hz hv1.1 hv1.2
    have hb2 := floor_scale_bounds _ zoom hz hv2.1 hv2.2
    rw [wrap32_id hb1.1 hb1.2, wrap32_id hb2.1 hb2.2]
    exact Int.floor_le_floor (mul_le_mul_of_nonneg_right
      (div_le_div_of_nonneg_right (by linarith) (by linarith)) (by positivity))

theorem projectToTile_monotone_witness :
    (1 : ℕ) ≤ 15
    ∧ -EARTH_CIRCUMFERENCE ≤ (0 : ℚ) ∧ (0 : ℚ) ≤ 10000
    ∧ (10000 : ℚ) ≤ EARTH_CIRCUMFERENCE
    ∧ (epsg_3857_to_tile (0, 5) 1).1 ≤ (epsg_3857_to_tile (10000, 5) 1).1 :=
  ⟨by norm_num, by norm_num [EARTH_CIRCUMFERENCE], by norm_num,
    by norm_num [EARTH_CIRCUMFERENCE],
    (projectToTile_monotone 1 (by norm_num)).1 0 10000 5
      (by norm_num [EARTH_CIRCUMFERENCE]) (by norm_num)
      (by norm_num [EARTH_CIRCUMFERENCE])⟩

lemma flatMap_grid_length {α : Type} (hn wn : ℕ) (f : ℕ → ℕ → α) :
    ((List.range hn).flatMap fun j => (List.range wn).map (f j)).length
      = hn * wn := by
  induction hn with
  | zero => simp
  | succ k ih =>
    rw [List.range_succ, List.flatMap_append, List.length_append, ih]
    simp [Nat.succ_mul]

lemma flatMap_grid_getD {α : Type} (hn wn : ℕ) (f : ℕ → ℕ → α) (d : α) (i : ℕ)
    (hi : i < hn * wn) :
    ((List.range hn).flatMap fun j => (List.range wn).map (f j)).getD i d
      = f (i / wn) (i % wn) := by
  induction hn with
  | zero => omega
  | succ k ih =>
    have hi2 : i < k * wn + wn := by rw [Nat.succ_mul] at hi; exact hi
    rw [List.range_succ, List.flatMap_append]
    have hlen := flatMap_grid_length k wn f
    rcases lt_or_le i (k * wn) with hc | hc
    · rw [List.getD_append _ _ _ _ (by rw [hlen]; exact hc)]
      exact ih hc
    · rw [List.getD_append_right _ _ _ _ (by rw [hlen]; exact hc), hlen]
      have hdiv : i / wn = k := Nat.div_eq_of_lt_le hc (by rw [Nat.succ_mul]; exact hi2)
      have hdm := Nat.div_add_mod i wn
      rw [hdiv] at hdm
      have hmod : i % wn = i - k * wn := by rw [Nat.mul_comm k wn]; omega
      simp only [List.flatMap_cons, List.flatMap_nil, List.append_nil]
      rw [List.getD_eq_getElem _ _ (by simp; omega), List.getElem_map,
        List.getElem_range, hdiv, hmod]

lemma flatMap_grid_mem (hn wn : ℕ) (z : ℕ) (left top : ℤ) (tc : ℕ × ℤ × ℤ) :
    tc ∈ ((List.range hn).flatMap fun (j : ℕ) =>
        (List.range wn).map fun (i : ℕ) => (z, left + (i : ℤ), top + (j : ℤ)))
      ↔ tc.1 = z ∧ left ≤ tc.2.1 ∧ tc.2.1 ≤ left + wn - 1
          ∧ top ≤ tc.2.2 ∧ tc.2.2 ≤ top + hn - 1 := by
  obtain ⟨tz, tx, ty⟩ := tc
  simp only [List.mem_flatMap, List.mem_map, List.mem_range]
  constructor
  · rintro ⟨j, hj, i, hi, heq⟩
    simp only [Prod.mk.injEq] at heq
    obtain ⟨h1, h2, h3⟩ := heq
    refine ⟨h1.symm, ?_, ?_, ?_, ?_⟩ <;> omega
  · rintro ⟨rfl, h2, h3, h4, h5⟩
    refine ⟨(ty - top).toNat, by omega, (tx - left).toNat, by omega, ?_⟩
    simp only [Prod.mk.injEq]
    exact ⟨trivial, by omega, by omega⟩

lemma flatMap_grid_nodup (hn wn : ℕ) (z : ℕ) (left top : ℤ) :
    ((List.range hn).flatMap fun (j : ℕ) =>
      (List.range wn).map fun (i : ℕ) =>
        (z, left + (i : ℤ), top + (j : ℤ))).Nodup := by
  induction hn with
  | zero => exact List.nodup_nil
  | succ k ih =>
    rw [List.range_succ, List.flatMap_append, List.flatMap_cons, List.flatMap_nil,
      List.append_nil]
    refine List.Nodup.append ih ?_ ?_
    · refine List.Nodup.map ?_ (List.nodup_range wn)
      intro i1 i2 hi
      simp only [Prod.mk.injEq] at hi
      omega
    · intro tc h1 h2
      have hmem := (flatMap_grid_mem k wn z left top tc).mp h1
      obtain ⟨i, hi, heq⟩ := List.mem_map.mp h2
      have : tc.2.2 = top + (k : ℤ) := by rw [← heq]
      omega

lemma tile_fst (x y : ℚ) (zoom : ℕ) :
    (epsg_3857_to_tile (x, y) zoom).1
      = wrap32 ⌊(EARTH_CIRCUMFERENCE + x) / (2 * EARTH_CIRCUMFERENCE) * 2 ^ zoom⌋ :=
  rfl

lemma tile_snd (x y : ℚ) (zoom : ℕ) :
    (epsg_3857_to_tile (x, y) zoom).2
      = wrap32 ⌊(EARTH_CIRCUMFERENCE - y) / (2 * EARTH_CIRCUMFERENCE) * 2 ^ zoom⌋ :=
  rfl

lemma ofBox_left (l b r t : ℚ) (zoom : ℕ) :
    (TileSet.ofBox (l, b, r, t) zoom).left = (epsg_3857_to_tile (l, b) zoom).1 :=
  rfl

lemma ofBox_bottom (l b r t : ℚ) (zoom : ℕ) :
    (TileSet.ofBox (l, b, r, t) zoom).bottom = (epsg_3857_to_tile (l, b) zoom).2 :=
  rfl

lemma ofBox_right (l b r t : ℚ) (zoom : ℕ) :
    (TileSet.ofBox (l, b, r, t) zoom).right = (epsg_3857_to_tile (r, t) zoom).1 :=
  rfl

lemma ofBox_top (l b r t : ℚ) (zoom : ℕ) :
    (TileSet.ofBox (l, b, r, t) zoom).top = (epsg_3857_to_tile (r, t) zoom).2 :=
  rfl

lemma ofBox_width (l b r t : ℚ) (zoom : ℕ) :
    (TileSet.ofBox (l, b, r, t) zoom).width
      = (epsg_3857_to_tile (r, t) zoom).1 - (epsg_3857_to_tile (l, b) zoom).1 + 1 :=
  rfl

lemma ofBox_height (l b r t : ℚ) (zoom : ℕ) :
    (TileSet.ofBox (l, b, r, t) zoom).height
      = (epsg_3857_to_tile (l, b) zoom).2 - (epsg_3857_to_tile (r, t) zoom).2 + 1 :=
  rfl

/-- C7: for every TileSet built from a valid bounding box and zoom level,
width and height are at least one, count equals width times height equals
the length of the tile list, and the tile list enumerates, in row-major
order with rows outermost, exactly the tile coordinates of the rectangle
from left to right and top to bottom, without duplicates. -/
theorem tileset_enumeration (ts : TileSet) (l b r t : ℚ) (zoom : ℕ)
    (hts : ts = TileSet.ofBox (l, b, r, t) zoom) (hz : zoom ≤ 15)
    (hl : -EARTH_CIRCUMFERENCE ≤ l) (hlr : l < r) (hr : r ≤ EARTH_CIRCUMFERENCE)
    (hb : -EARTH_CIRCUMFERENCE ≤ b) (hbt : b < t) (ht : t ≤ EARTH_CIRCUMFERENCE) :
    1 ≤ ts.width ∧ 1 ≤ ts.height
    ∧ ts.count = ts.width * ts.height
    ∧ (ts.tilesList.length : ℤ) = ts.count
    ∧ ts.tilesList.Nodup
    ∧ (∀ tc : ℕ × ℤ × ℤ, tc ∈ ts.tilesList ↔
        tc.1 = ts.zoom ∧ ts.left ≤ tc.2.1 ∧ tc.2.1 ≤ ts.right
          ∧ ts.top ≤ tc.2.2 ∧ tc.2.2 ≤ ts.bottom)
    ∧ (∀ i : ℕ, i < ts.tilesList.length →
        ts.tilesList.getD i (0, 0, 0)
          = (ts.zoom, ts.left + ((i % ts.width.toNat : ℕ) : ℤ),
              ts.top + ((i / ts.width.toNat : ℕ) : ℤ))) := by
  subst hts
  have hR := EC_pos
  have hub_l := u_bounds l hl (le_of_lt (lt_of_lt_of_le hlr hr))
  have hub_r := u_bounds r (le_trans hl (le_of_lt hlr)) hr
  have hvb_b := v_bounds b hb (le_of_lt (lt_of_lt_of_le hbt ht))
  have hvb_t := v_bounds t (le_trans hb (le_of_lt hbt)) ht
  have hA := floor_scale_bounds _ zoom hz hub_l.1 hub_l.2
  have hB := floor_scale_bounds _ zoom hz hub_r.1 hub_r.2
  have hC := floor_scale_bounds _ zoom hz hvb_b.1 hvb_b.2
  have hD := floor_scale_bounds _ zoom hz hvb_t.1 hvb_t.2
  have hleft : (TileSet.ofBox (l, b, r, t) zoom).left
      = ⌊(EARTH_CIRCUMFERENCE + l) / (2 * EARTH_CIRCUMFERENCE) * 2 ^ zoom⌋ := by
    rw [ofBox_left, tile_fst, wrap32_id hA.1 hA.2]
  have hright : (TileSet.ofBox (l, b, r, t) zoom).right
      = ⌊(EARTH_CIRCUMFERENCE + r) / (2 * EARTH_CIRCUMFERENCE) * 2 ^ zoom⌋ := by
    rw [ofBox_right, tile_fst, wrap32_id hB.1 hB.2]
  have hbottom : (TileSet.ofBox (l, b, r, t) zoom).bottom
      = ⌊(EARTH_CIRCUMFERENCE - b) / (2 * EARTH_CIRCUMFERENCE) * 2 ^ zoom⌋ := by
    rw [ofBox_bottom, tile_snd, wrap32_id hC.1 hC.2]
  have htop : (TileSet.ofBox (l, b, r, t) zoom).top
      = ⌊(EARTH_CIRCUMFERENCE - t) / (2 * EARTH_CIRCUMFERENCE) * 2 ^ zoom⌋ := by
    rw [ofBox_top, tile_snd, wrap32_id hD.1 hD.2]
  have hwidth : (TileSet.ofBox (l, b, r, t) zoom).width
      = ⌊(EARTH_CIRCUMFERENCE + r) / (2 * EARTH_CIRCUMFERENCE) * 2 ^ zoom⌋
        - ⌊(EARTH_CIRCUMFERENCE + l) / (2 * EARTH_CIRCUMFERENCE) * 2 ^ zoom⌋ + 1 := by
    rw [ofBox_width, tile_fst, tile_fst, wrap32_id hA.1 hA.2, wrap32_id hB.1 hB.2]
  have hheight : (TileSet.ofBox (l, b, r, t) zoom).height
      = ⌊(EARTH_CIRCUMFERENCE - b) / (2 * EARTH_CIRCUMFERENCE) * 2 ^ zoom⌋
        - ⌊(EARTH_CIRCUMFERENCE - t) / (2 * EARTH_CIRCUMFERENCE) * 2 ^ zoom⌋ + 1 := by
    rw [ofBox_height, tile_snd, tile_snd, wrap32_id hC.1 hC.2, wrap32_id hD.1 hD.2]
  have hAB : ⌊(EARTH_CIRCUMFERENCE + l) / (2 * EARTH_CIRCUMFERENCE) * 2 ^ zoom⌋
      ≤ ⌊(EARTH_CIRCUMFERENCE + r) / (2 * EARTH_CIRCUMFERENCE) * 2 ^ zoom⌋ :=
    Int.floor_le_floor (mul_le_mul_of_nonneg_right
      (div_le_div_of_nonneg_right (by linarith) (by linarith)) (by positivity))
  have hDC : ⌊(EARTH_CIRCUMFERENCE - t) / (2 * EARTH_CIRCUMFERENCE) * 2 ^ zoom⌋
      ≤ ⌊(EARTH_CIRCUMFERENCE - b) / (2 * EARTH_CIRCUMFERENCE) * 2 ^ zoom⌋ :=
    Int.floor_le_floor (mul_le_mul_of_nonneg_right
      (div_le_div_of_nonneg_right (by linarith) (by linarith)) (by positivity))
  have hw1 : 1 ≤ (TileSet.ofBox (l, b, r, t) zoom).width := by omega
  have hh1 : 1 ≤ (TileSet.ofBox (l, b, r, t) zoom).height := by omega
  have ew : (((TileSet.ofBox (l, b, r, t) zoom).width.toNat : ℕ) : ℤ)
      = (TileSet.ofBox (l, b, r, t) zoom).width := Int.toNat_of_nonneg (by omega)
  have eh : (((TileSet.ofBox (l, b, r, t) zoom).height.toNat : ℕ) : ℤ)
      = (TileSet.ofBox (l, b, r, t) zoom).height := Int.toNat_of_nonneg (by omega)
  have hlen : (TileSet.ofBox (l, b, r, t) zoom).tilesList.length
      = (TileSet.ofBox (l, b, r, t) zoom).height.toNat
        * (TileSet.ofBox (l, b, r, t) zoom).width.toNat :=
    flatMap_grid_length _ _ _
  have hrw : (TileSet.ofBox (l, b, r, t) zoom).right
      = (TileSet.ofBox (l, b, r, t) zoom).left
        + ((TileSet.ofBox (l, b, r, t) zoom).width.toNat : ℤ) - 1 := by omega
  have hbw : (TileSet.ofBox (l, b, r, t) zoom).bottom
      = (TileSet.ofBox (l, b, r, t) zoom).top
        + ((TileSet.ofBox (l, b, r, t) zoom).height.toNat : ℤ) - 1 := by omega
  refine ⟨hw1, hh1, rfl, ?_, ?_, ?_, ?_⟩
  · rw [hlen]
    push_cast
    rw [ew, eh]
    exact mul_comm _ _
  · exact flatMap_grid_nodup _ _ _ _ _
  · intro tc
    rw [show (TileSet.ofBox (l, b, r, t) zoom).tilesList
        = (List.range (TileSet.ofBox (l, b, r, t) zoom).height.toNat).flatMap
            fun (j : ℕ) =>
          (List.range (TileSet.ofBox (l, b, r, t) zoom).width.toNat).map
            fun (i : ℕ) =>
              ((TileSet.ofBox (l, b, r, t) zoom).zoom,
                (TileSet.ofBox (l, b, r, t) zoom).left + (i : ℤ),
                (TileSet.ofBox (l, b, r, t) zoom).top + (j : ℤ)) from rfl,
      flatMap_grid_mem, hrw, hbw]
  · intro i hi
    rw [hlen] at hi
    exact flatMap_grid_getD _ _ _ _ i hi

theorem tileset_enumeration_witness :
    (1 : ℕ) ≤ 15
    ∧ -EARTH_CIRCUMFERENCE ≤ (0 : ℚ)
    ∧ (0 : ℚ) < EARTH_CIRCUMFERENCE / 2
    ∧ EARTH_CIRCUMFERENCE / 2 ≤ EARTH_CIRCUMFERENCE
    ∧ (1 ≤ (TileSet.ofBox (0, 0, EARTH_CIRCUMFERENCE / 2,
          EARTH_CIRCUMFERENCE / 2) 1).width
      ∧ 1 ≤ (TileSet.ofBox (0, 0, EARTH_CIRCUMFERENCE / 2,
          EARTH_CIRCUMFERENCE / 2) 1).height
      ∧ (TileSet.ofBox (0, 0, EARTH_CIRCUMFERENCE / 2,
          EARTH_CIRCUMFERENCE / 2) 1).count
          = (TileSet.ofBox (0, 0, EARTH_CIRCUMFERENCE / 2,
              EARTH_CIRCUMFERENCE / 2) 1).width
            * (TileSet.ofBox (0, 0, EARTH_CIRCUMFERENCE / 2,
                EARTH_CIRCUMFERENCE / 2) 1).height
      ∧ ((TileSet.ofBox (0, 0, EARTH_CIRCUMFERENCE / 2,
          EARTH_CIRCUMFERENCE / 2) 1).tilesList.length : ℤ)
          = (TileSet.ofBox (0, 0, EARTH_CIRCUMFERENCE / 2,
              EARTH_CIRCUMFERENCE / 2) 1).count
      ∧ (TileSet.ofBox (0, 0, EARTH_CIRCUMFERENCE / 2,
          EARTH_CIRCUMFERENCE / 2) 1).tilesList.Nodup
      ∧ (∀ tc : ℕ × ℤ × ℤ, tc ∈ (TileSet.ofBox (0, 0, EARTH_CIRCUMFERENCE / 2,
          EARTH_CIRCUMFERENCE / 2) 1).tilesList ↔
          tc.1 = (TileSet.ofBox (0, 0, EARTH_CIRCUMFERENCE / 2,
              EARTH_CIRCUMFERENCE / 2) 1).zoom
            ∧ (TileSet.ofBox (0, 0, EARTH_CIRCUMFERENCE / 2,
                EARTH_CIRCUMFERENCE / 2) 1).left ≤ tc.2.1
            ∧ tc.2.1 ≤ (TileSet.ofBox (0, 0, EARTH_CIRCUMFERENCE / 2,
                EARTH_CIRCUMFERENCE / 2) 1).right
            ∧ (TileSet.ofBox (0, 0, EARTH_CIRCUMFERENCE / 2,
                EARTH_CIRCUMFERENCE / 2) 1).top ≤ tc.2.2
            ∧ tc.2.2 ≤ (TileSet.ofBox (0, 0, EARTH_CIRCUMFERENCE / 2,
                EARTH_CIRCUMFERENCE / 2) 1).bottom)
      ∧ (∀ i : ℕ, i < (TileSet.ofBox (0, 0, EARTH_CIRCUMFERENCE / 2,
          EARTH_CIRCUMFERENCE / 2) 1).tilesList.length →
          (TileSet.ofBox (0, 0, EARTH_CIRCUMFERENCE / 2,
            EARTH_CIRCUMFERENCE / 2) 1).tilesList.getD i (0, 0, 0)
            = ((TileSet.ofBox (0, 0, EARTH_CIRCUMFERENCE / 2,
                EARTH_CIRCUMFERENCE / 2) 1).zoom,
                (TileSet.ofBox (0, 0, EARTH_CIRCUMFERENCE / 2,
                  EARTH_CIRCUMFERENCE / 2) 1).left
                  + ((i % (TileSet.ofBox (0, 0, EARTH_CIRCUMFERENCE / 2,
                      EARTH_CIRCUMFERENCE / 2) 1).width.toNat : ℕ) : ℤ),
                (TileSet.ofBox (0, 0, EARTH_CIRCUMFERENCE / 2,
                  EARTH_CIRCUMFERENCE / 2) 1).top
                  + ((i / (TileSet.ofBox (0, 0, EARTH_CIRCUMFERENCE / 2,
                      EARTH_CIRCUMFERENCE / 2) 1).width.toNat : ℕ) : ℤ)))) :=
  ⟨by norm_num, by norm_num [EARTH_CIRCUMFERENCE], by norm_num [EARTH_CIRCUMFERENCE],
    by norm_num [EARTH_CIRCUMFERENCE],
    tileset_enumeration _ 0 0 (EARTH_CIRCUMFERENCE / 2) (EARTH_CIRCUMFERENCE / 2) 1
      rfl (by norm_num) (by norm_num [EARTH_CIRCUMFERENCE])
      (by norm_num [EARTH_CIRCUMFERENCE]) (by norm_num [EARTH_CIRCUMFERENCE])
      (by norm_num [EARTH_CIRCUMFERENCE]) (by norm_num [EARTH_CIRCUMFERENCE])
      (by norm_num [EARTH_CIRCUMFERENCE])⟩

/-- C1: the claim states that the crop pixel bounds are derived from the
sub-tile pixel offsets of both corners of the bounding box, the
bottom-left bound from the bottom-left coordinate and the top-right bound
from the top-right coordinate, so that the cropped output has exactly the
requested pixel extent.  Line 70 of main.py passes the bottom-left corner
a second time when computing right_pixel and top_pixel, so both crop
bounds come from the bottom-left coordinate and the crop extent never
depends on the sub-tile offsets at all.  The spec words (and the source
comment on main.py line 207, crop the data to the exact requested area)
make the intent clear, so this is a defect of the code: at the bounding
box (0, 0, R/2, R/2) with R the half-circumference and zoom 1, the code
crops to 256 rows and 0 columns while the exact requested extent per the
spec derivation is 128 by 128 pixels. -/
theorem crop_bounds_from_wrong_corner :
    (TileSet.ofBox (0, 0, EARTH_CIRCUMFERENCE / 2, EARTH_CIRCUMFERENCE / 2)
        1).cropExtent = (256, 0)
    ∧ specCropExtent (0, 0, EARTH_CIRCUMFERENCE / 2, EARTH_CIRCUMFERENCE / 2) 1
        = (128, 128)
    ∧ ((256 : ℤ), (0 : ℤ)) ≠ ((128 : ℤ), (128 : ℤ)) := by
  refine ⟨?_, ?_, by decide⟩
  · norm_num [TileSet.cropExtent, TileSet.ofBox, epsg_3857_to_tile,
      epsg_3857_to_pixel, wrap32, wrap8, EARTH_CIRCUMFERENCE, Prod.ext_iff]
  · norm_num [specCropExtent, specCropBounds, epsg_3857_to_tile,
      epsg_3857_to_pixel, wrap32, wrap8, EARTH_CIRCUMFERENCE, Prod.ext_iff]

/-- C9: every call of download_tile creates the missing parent
directories of the tile cache path before the cache check or the network
request, and when the fetch fails with a non-200 status on a cache miss
no file is created at the cache path and nothing is enqueued, yet the
parent directories have still been added to the directory tree. -/
theorem download_tile_mkdir_first (fs : FS) (resp : ℕ × List ℕ)
    (coords : List ℕ) (ti : ℕ) :
    (download_tile fs resp coords ti).fs.dirs = (mkdirParents fs coords).dirs
    ∧ (∀ d ∈ parentDirs coords, d ∈ (download_tile fs resp coords ti).fs.dirs)
    ∧ (fs.files.lookup (tile_coords_to_filepath coords) = none → resp.1 ≠ 200 →
        (download_tile fs resp coords ti).fs.files = fs.files
        ∧ (download_tile fs resp coords ti).queue = []) := by
  have hdirs : (download_tile fs resp coords ti).fs.dirs
      = (mkdirParents fs coords).dirs := by
    simp only [download_tile]
    split <;> first
      | rfl
      | (split <;> rfl)
  refine ⟨hdirs, ?_, ?_⟩
  · intro d hd
    rw [hdirs]
    simp only [mkdirParents]
    by_cases hc : d ∈ fs.dirs
    · exact List.mem_append_left _ hc
    · refine List.mem_append_right _ (List.mem_filter.mpr ⟨hd, by simp [hc]⟩)
  · intro hmiss hstatus
    unfold download_tile
    simp only [mkdirParents]
    rw [hmiss, if_neg hstatus]
    exact ⟨rfl, rfl⟩

theorem download_tile_mkdir_first_witness :
    (FS.mk [] []).files.lookup (tile_coords_to_filepath [14, 3, 5]) = none
    ∧ (500 : ℕ) ≠ 200
    ∧ ((download_tile (FS.mk [] []) (500, []) [14, 3, 5] 0).fs.dirs
        = (mkdirParents (FS.mk [] []) [14, 3, 5]).dirs
      ∧ (∀ d ∈ parentDirs [14, 3, 5],
          d ∈ (download_tile (FS.mk [] []) (500, []) [14, 3, 5] 0).fs.dirs)
      ∧ ((FS.mk [] []).files.lookup (tile_coords_to_filepath [14, 3, 5]) = none →
          (500 : ℕ) ≠ 200 →
            (download_tile (FS.mk [] []) (500, []) [14, 3, 5] 0).fs.files
              = (FS.mk [] []).files
            ∧ (download_tile (FS.mk [] []) (500, []) [14, 3, 5] 0).queue = [])) :=
  ⟨rfl, by decide, download_tile_mkdir_first (FS.mk [] []) (500, []) [14, 3, 5] 0⟩

end MapZenDL
